import Mathlib

set_option maxRecDepth 2000

/-!
Verification development for the resonant_search repository.

The Rust sources are shallowly embedded:
* `src/rust/src/tokenizer.rs`   -> `PrimeTokenizer`
* `src/rust/src/prime_hilbert.rs` -> `PrimeVector`, `build_vector`, `dot_product`,
  `build_biorthogonal_vector`, `resonance_complex`, `to_dense_vector`, `biorthogonal_score`
* `src/rust/src/entropy.rs`     -> `shannon_entropy`, `calculate_reversibility`,
  `entropy_pressure`, `buffering_capacity`, `persistence_score`
* `src/rust/src/engine.rs`      -> `ResonantEngine` and its operations
* `src/resonantsearc.whispr.dev_search/src/advanced_crawler.rs` -> the crawler model

Machine floats (`f64`) are modelled by exact arithmetic: rational numbers for the
term-frequency vectors (whose construction and dot products are exact), and real
numbers for the entropy / exponential scoring pipeline.  Timestamps (`u64` seconds)
are `Nat`; the ambient clock `SystemTime::now()` is passed explicitly as a `now`
argument.
-/

/-! ## Tokenizer (`src/rust/src/tokenizer.rs`) -/

/-- A character matched by the `\w` class of the word regex `\b\w+\b`:
ASCII alphanumeric or underscore. -/
def isWordChar (c : Char) : Bool :=
  c.isAlphanum || c == '_'

/-- Lower-casing of the input text (`text.to_lowercase()`), modelled per character. -/
def lowerString (s : String) : String :=
  String.mk (s.toList.map Char.toLower)

/-- The word sequence extracted by `word_regex.find_iter` over the lower-cased text:
the maximal non-empty runs of word characters, in order. -/
def textWords (text : String) : List String :=
  (((lowerString text).toList.splitOnP (fun c => !isWordChar c)).filter
      (fun l => !l.isEmpty)).map String.mk

/-- State of `PrimeTokenizer`: the two directions of the word/prime mapping and the
`current_prime` counter (initially `2`). -/
structure PrimeTokenizer where
  token_to_prime : List (String × Nat)
  prime_to_token : List (Nat × String)
  current_prime : Nat
deriving DecidableEq

/-- The fresh tokenizer produced by `PrimeTokenizer::new()`. -/
def PrimeTokenizer.new : PrimeTokenizer :=
  ⟨[], [], 2⟩

/-- The value computed by `PrimeTokenizer::next_prime`: the least prime strictly
greater than `p`.  (The Rust loop steps by `1` from `2` and by `2` from odd values;
since every reachable `current_prime` is `2` or an odd prime and every prime above
`2` is odd, the loop returns exactly the least prime above the counter.) -/
def nextPrimeAfter (p : Nat) : Nat :=
  Nat.find (Nat.exists_infinite_primes (p + 1))

/-- One step of the token loop in `PrimeTokenizer::tokenize`: look the word up,
allocating the next prime on a miss, and emit its prime. -/
def tokenizeWord (t : PrimeTokenizer) (w : String) : Nat × PrimeTokenizer :=
  match t.token_to_prime.lookup w with
  | some p => (p, t)
  | none =>
      let p := nextPrimeAfter t.current_prime
      (p, ⟨t.token_to_prime ++ [(w, p)], t.prime_to_token ++ [(p, w)], p⟩)

/-- `PrimeTokenizer::tokenize`: lower-case, split into words, and map each word to
its prime, mutating the vocabulary on first occurrences. -/
def PrimeTokenizer.tokenize (t : PrimeTokenizer) (text : String) :
    List Nat × PrimeTokenizer :=
  (textWords text).foldl
    (fun acc w =>
      let (p, t') := tokenizeWord acc.2 w
      (acc.1 ++ [p], t'))
    ([], t)

/-- `PrimeTokenizer::tokenize_without_update`: an identity pass-through on an
already-known id sequence; no vocabulary mutation. -/
def PrimeTokenizer.tokenize_without_update (_t : PrimeTokenizer) (primes : List Nat) :
    List Nat :=
  primes

/-! ## Prime vector space (`src/rust/src/prime_hilbert.rs`) -/

/-- `PrimeVector`, a sparse map from term prime to weight, as an association list
with pairwise-distinct keys. -/
abbrev PrimeVector : Type :=
  List (Nat × ℚ)

/-- Weight of prime `p` in a sparse vector; `0` off the support
(`vec2.get(prime)` with a missing key contributing nothing). -/
def PrimeVector.w (v : PrimeVector) (p : Nat) : ℚ :=
  ((List.lookup p v).getD 0 : ℚ)

/-- `build_vector`: raw counts of each token, normalized by the token count. -/
def build_vector (tokens : List Nat) : PrimeVector :=
  tokens.dedup.map (fun p => (p, (tokens.count p : ℚ) / (tokens.length : ℚ)))

/-- `dot_product`: sum over the support of the first vector of the products with the
matching entries of the second. -/
def dot_product (v1 v2 : PrimeVector) : ℚ :=
  (v1.map (fun pw => pw.2 * v2.w pw.1)).sum

/-- `BiorthogonalVector` with its `left`/`right` components. -/
structure BiorthogonalVector where
  left : PrimeVector
  right : PrimeVector

/-- `build_biorthogonal_vector`: each occurrence contributes `0.5` to both halves,
then both halves are normalized by the token count. -/
def build_biorthogonal_vector (primes : List Nat) : BiorthogonalVector :=
  let half : PrimeVector :=
    primes.dedup.map
      (fun p => (p, ((1 : ℚ) / 2 * (primes.count p : ℚ)) / (primes.length : ℚ)))
  ⟨half, half⟩

/-- `biorthogonal_score`: dot products of the matching halves, summed. -/
def biorthogonal_score (q d : BiorthogonalVector) : ℚ :=
  dot_product q.left d.left + dot_product q.right d.right

/-- `resonance_complex`: real part `dot_product * e^(-decay)`, imaginary part
`(sum over shared keys of ln(prime) * w1 * w2) * e^(-decay/2)`, returned as a pair
`(re, im)`. -/
noncomputable def resonance_complex (v1 v2 : PrimeVector) (decay : ℝ) : ℝ × ℝ :=
  let phase : ℝ := (v1.map (fun pw => Real.log pw.1 * (pw.2 : ℝ) * (v2.w pw.1 : ℝ))).sum
  ((dot_product v1 v2 : ℝ) * Real.exp (-decay), phase * Real.exp (-decay * 0.5))

/-- `to_dense_vector`: a dense array of length `max_prime_value + 1` indexed by
term prime; primes beyond the dimension are dropped. -/
def to_dense_vector (v : PrimeVector) (max_prime_value : Nat) : List ℚ :=
  (List.range (max_prime_value + 1)).map (fun i => v.w i)

/-! ## Missing module `quantum_types.rs` -/

/-- Modelled from the spec: `quantum_types.rs` (declared in `src/rust/src/lib.rs` and
imported by `entropy.rs`) is not under `src/`.  Per the spec it provides
`mutual_information(denseA, denseB)` valued in `[0, min(H(A), H(B))]` via an
unspecified joint-histogram estimator, and the non-negative structural statistics
`calculate_redundancy` (compressibility of the mass distribution) and
`calculate_symmetry` (evenness of mass about the center).  The engine embedding is
parameterized by this interface. -/
structure QuantumTypes where
  mutual_information : List ℚ → List ℚ → ℝ
  calculate_redundancy : List ℚ → ℝ
  calculate_symmetry : List ℚ → ℝ

/-- Modelled from the spec: a concrete spec-consistent instance of the missing
`quantum_types.rs` functions, used to evaluate the engine on concrete corpora.
Mutual information is the degenerate one-bin joint-histogram estimate (a single bin
makes the joint distribution deterministic, so the estimate is `0`, inside
`[0, min(H(A), H(B))]`); redundancy is the repeated-entry fraction of the vector (a
crude compressibility statistic, non-negative); symmetry is the reciprocal of one
plus the total mass asymmetry about the center (maximal for a mirror-symmetric
vector, always positive). -/
noncomputable def qtSpec : QuantumTypes where
  mutual_information := fun _ _ => 0
  calculate_redundancy := fun v =>
    (((v.length - v.dedup.length : ℕ) : ℚ) / (v.length : ℚ) : ℚ)
  calculate_symmetry := fun v =>
    ((1 / (1 + ((v.zip v.reverse).map (fun ab => |ab.1 - ab.2|)).sum) : ℚ) : ℝ)

/-! ## Entropy model (`src/rust/src/entropy.rs`) -/

/-- `shannon_entropy`: `-sum p log2 p` over the empirical distribution of the token
multiset; `0` for the empty sequence. -/
noncomputable def shannon_entropy (primes : List Nat) : ℝ :=
  if primes = [] then 0
  else
    -(primes.dedup.map
        (fun p =>
          ((primes.count p : ℚ) / (primes.length : ℚ) : ℝ) *
            Real.logb 2 ((primes.count p : ℚ) / (primes.length : ℚ) : ℝ))).sum

/-- `calculate_reversibility`: `1` for empty history, otherwise the mean mutual
information between the current vector and each historical vector. -/
noncomputable def calculate_reversibility (qt : QuantumTypes) (doc_vector : List ℚ)
    (historical_vectors : List (List ℚ)) : ℝ :=
  if historical_vectors = [] then 1
  else
    (historical_vectors.map (fun past => qt.mutual_information doc_vector past)).sum /
      (historical_vectors.length : ℝ)

/-- `entropy_pressure(doc_age, update_frequency, trend_decay) =
update_frequency * trend_decay * e^(doc_age)`. -/
noncomputable def entropy_pressure (doc_age update_frequency trend_decay : ℝ) : ℝ :=
  update_frequency * trend_decay * Real.exp doc_age

/-- `buffering_capacity`: redundancy plus symmetry of the dense vector. -/
noncomputable def buffering_capacity (qt : QuantumTypes) (doc_vector : List ℚ) : ℝ :=
  qt.calculate_redundancy doc_vector + qt.calculate_symmetry doc_vector

/-- `persistence_score`: `0` when buffering is non-positive, otherwise
`e^(-fragility * (1 - reversibility) * (pressure / buffering))`. -/
noncomputable def persistence_score (reversibility pressure buffering fragility : ℝ) :
    ℝ :=
  if buffering ≤ 0 then 0
  else Real.exp (-fragility * (1 - reversibility) * (pressure / buffering))

/-! ## Ranking engine (`src/rust/src/engine.rs`) -/

/-- Modelled from the spec: `crawler.rs` (declared in `src/rust/src/lib.rs`) is not
under `src/`; per the spec the ingestion boundary carries `{url, title, text}`
records, matching the uses of `CrawledDocument` in `engine.rs`. -/
structure CrawledDocument where
  url : String
  title : String
  text : String

/-- `IndexedDocument`: a processed document in the engine's index. -/
structure IndexedDocument where
  title : String
  text : String
  vector : PrimeVector
  biorthogonal : BiorthogonalVector
  entropy : ℝ
  path : String
  timestamp : Nat
  reversibility : ℝ
  buffering : ℝ
  historical_vectors : List (List ℚ)

/-- `SearchResult`: scoring details and a snippet for one returned document. -/
structure SearchResult where
  title : String
  resonance : ℝ
  delta_entropy : ℝ
  score : ℝ
  quantum_score : ℝ
  persistence_score : ℝ
  snippet : String
  path : String

/-- `ResonantEngine`: tokenizer, corpus, and scoring configuration. -/
structure ResonantEngine where
  tokenizer : PrimeTokenizer
  docs : List IndexedDocument
  entropy_weight : ℝ
  fragility : ℝ
  trend_decay : ℝ
  use_quantum_score : Bool
  use_persistence_score : Bool

/-- `ResonantEngine::new()`. -/
def ResonantEngine.new : ResonantEngine where
  tokenizer := PrimeTokenizer.new
  docs := []
  entropy_weight := 0.1
  fragility := 0.2
  trend_decay := 0.05
  use_quantum_score := true
  use_persistence_score := true

/-- `ResonantEngine::set_use_quantum_score`. -/
def ResonantEngine.set_use_quantum_score (e : ResonantEngine) (enable : Bool) :
    ResonantEngine :=
  { e with use_quantum_score := enable }

/-- `ResonantEngine::set_use_persistence_score`. -/
def ResonantEngine.set_use_persistence_score (e : ResonantEngine) (enable : Bool) :
    ResonantEngine :=
  { e with use_persistence_score := enable }

/-- `ResonantEngine::set_entropy_weight`. -/
def ResonantEngine.set_entropy_weight (e : ResonantEngine) (weight : ℝ) :
    ResonantEngine :=
  { e with entropy_weight := weight }

/-- `ResonantEngine::set_fragility`. -/
def ResonantEngine.set_fragility (e : ResonantEngine) (fragility : ℝ) :
    ResonantEngine :=
  { e with fragility := fragility }

/-- `ResonantEngine::set_trend_decay`. -/
def ResonantEngine.set_trend_decay (e : ResonantEngine) (decay : ℝ) :
    ResonantEngine :=
  { e with trend_decay := decay }

/-- `ResonantEngine::add_crawled_document`: tokenize (mutating the vocabulary),
silently drop the document when the token sequence is empty, otherwise build the
vectors and metadata and append one `IndexedDocument` to the corpus.  `now` is the
ambient `SystemTime::now()` in seconds. -/
noncomputable def ResonantEngine.add_crawled_document (qt : QuantumTypes) (now : Nat)
    (e : ResonantEngine) (doc : CrawledDocument) : ResonantEngine :=
  let tk := e.tokenizer.tokenize doc.text
  let e' := { e with tokenizer := tk.2 }
  if tk.1 = [] then e'
  else
    let vec := build_vector tk.1
    let dense_vec := to_dense_vector vec 1000
    { e' with
      docs := e'.docs ++
        [{ title := doc.title
           text := doc.text
           vector := vec
           biorthogonal := build_biorthogonal_vector tk.1
           entropy := shannon_entropy tk.1
           path := doc.url
           timestamp := now
           reversibility := 1
           buffering := buffering_capacity qt dense_vec
           historical_vectors := [dense_vec] }] }

/-- `ResonantEngine::update_document_relationships`: recompute each document's
reversibility against the dense projections of every other document, and append the
current dense snapshot to its history only while the history holds fewer than 5
entries.  Documents of a singleton corpus are left untouched. -/
noncomputable def ResonantEngine.update_document_relationships (qt : QuantumTypes)
    (e : ResonantEngine) : ResonantEngine :=
  let all_vectors := e.docs.map (fun d => to_dense_vector d.vector 1000)
  { e with
    docs :=
      e.docs.mapIdx (fun i doc =>
        let others_vectors :=
          (all_vectors.enum.filter (fun jv => jv.1 ≠ i)).map (fun jv => jv.2)
        if others_vectors = [] then doc
        else
          let current_vec := all_vectors.getD i []
          { doc with
            reversibility := calculate_reversibility qt current_vec others_vectors
            historical_vectors :=
              if doc.historical_vectors.length < 5 then
                doc.historical_vectors ++ [current_vec]
              else doc.historical_vectors }) }

/-- `ResonantEngine::calculate_quantum_score`: decay from the document age capped at
100 days, complex resonance, and the biorthogonal score of the query key set,
combined `0.6 / 0.2 / 0.2`. -/
noncomputable def ResonantEngine.calculate_quantum_score (now : Nat)
    (e : ResonantEngine) (query_vec : PrimeVector) (doc : IndexedDocument) : ℝ :=
  let doc_age : ℝ := ((now - doc.timestamp : ℕ) : ℝ) / (24 * 3600)
  let decay_factor : ℝ := 0.01 * min doc_age 100
  let complex_res := resonance_complex query_vec doc.vector decay_factor
  let query_bio :=
    build_biorthogonal_vector
      (e.tokenizer.tokenize_without_update (query_vec.map (fun pw => pw.1)))
  let bio_score := biorthogonal_score query_bio doc.biorthogonal
  complex_res.1 * 0.6 + |complex_res.2| * 0.2 + (bio_score : ℝ) * 0.2

/-- `ResonantEngine::calculate_persistence_score`: the thermodynamic persistence of
the document (update frequency fixed at `0.1`), attenuated by the entropy delta
with the query. -/
noncomputable def ResonantEngine.calculate_persistence_score (now : Nat)
    (e : ResonantEngine) (query_entropy : ℝ) (doc : IndexedDocument) : ℝ :=
  let doc_age : ℝ := ((now - doc.timestamp : ℕ) : ℝ) / (24 * 3600)
  let update_frequency : ℝ := 0.1
  let persistence :=
    persistence_score doc.reversibility
      (entropy_pressure doc_age update_frequency e.trend_decay) doc.buffering
      e.fragility
  let entropy_delta := |doc.entropy - query_entropy|
  persistence * Real.exp (-entropy_delta * e.entropy_weight)

/-- The `SearchResult` built for one document in the map phase of
`ResonantEngine::search`; its `score` field is the standard score. -/
noncomputable def ResonantEngine.mkSearchResult (now : Nat) (e : ResonantEngine)
    (query_vec : PrimeVector) (query_entropy : ℝ) (doc : IndexedDocument) :
    SearchResult :=
  let resonance := dot_product query_vec doc.vector
  let delta_entropy := |doc.entropy - query_entropy|
  let standard_score := (resonance : ℝ) - delta_entropy * e.entropy_weight
  { title := doc.title
    resonance := (resonance : ℝ)
    delta_entropy := delta_entropy
    score := standard_score
    quantum_score :=
      if e.use_quantum_score then e.calculate_quantum_score now query_vec doc else 0
    persistence_score :=
      if e.use_persistence_score then
        e.calculate_persistence_score now query_entropy doc
      else 0
    snippet := ((doc.text.take 200).trim.replace "\n" " ") ++ "..."
    path := doc.path }

/-- The combined score recomputed inside the sort comparator of
`ResonantEngine::search`: `50/25/25` with both features on, `70/30` with exactly
one, the standard score alone otherwise. -/
noncomputable def combinedScore (uq up : Bool) (r : SearchResult) : ℝ :=
  if uq && up then r.score * 0.5 + r.quantum_score * 0.25 + r.persistence_score * 0.25
  else if uq then r.score * 0.7 + r.quantum_score * 0.3
  else if up then r.score * 0.7 + r.persistence_score * 0.3
  else r.score

open scoped Classical

/-- `ResonantEngine::search`: first refresh document relationships, then tokenize
the query (mutating the vocabulary); an empty token sequence returns no results.
Otherwise score every document, sort by combined score descending (`sort_by` is a
stable sort; ties keep insertion order), and return the top `k`.  The returned pair
is the mutated engine and the results. -/
noncomputable def ResonantEngine.search (qt : QuantumTypes) (now : Nat)
    (e : ResonantEngine) (query : String) (top_k : Nat) :
    ResonantEngine × List SearchResult :=
  let e1 := e.update_document_relationships qt
  let tk := e1.tokenizer.tokenize query
  let e2 := { e1 with tokenizer := tk.2 }
  if tk.1 = [] then (e2, [])
  else
    let query_vec := build_vector tk.1
    let query_entropy := shannon_entropy tk.1
    let results := e2.docs.map (e2.mkSearchResult now query_vec query_entropy)
    let sorted :=
      results.insertionSort (fun a b =>
        combinedScore e2.use_quantum_score e2.use_persistence_score b ≤
          combinedScore e2.use_quantum_score e2.use_persistence_score a)
    (e2, sorted.take top_k)

/-- `ResonantEngine::apply_quantum_jump`: tokenize the query (no-op on an empty
token sequence); for every document whose dot product with the query exceeds `0.1`,
push the current dense snapshot into the history with FIFO eviction at capacity 5,
set reversibility to `0.9 * old + 0.1 * (resonance * importance)`, and advance the
timestamp of a document older than one day to halve its apparent age. -/
noncomputable def ResonantEngine.apply_quantum_jump (now : Nat) (e : ResonantEngine)
    (query : String) (importance : ℝ) : ResonantEngine :=
  let tk := e.tokenizer.tokenize query
  let e' := { e with tokenizer := tk.2 }
  if tk.1 = [] then e'
  else
    let query_vec := build_vector tk.1
    { e' with
      docs :=
        e'.docs.map (fun doc =>
          let doc_dense := to_dense_vector doc.vector 100
          let query_dense := to_dense_vector query_vec 100
          if doc_dense = [] ∨ query_dense = [] then doc
          else
            let resonance := dot_product query_vec doc.vector
            if (1 : ℚ) / 10 < resonance then
              let current_vec := to_dense_vector doc.vector 1000
              { doc with
                historical_vectors :=
                  if doc.historical_vectors.length < 5 then
                    doc.historical_vectors ++ [current_vec]
                  else if ¬doc.historical_vectors = [] then
                    doc.historical_vectors.drop 1 ++ [current_vec]
                  else doc.historical_vectors
                reversibility :=
                  doc.reversibility * 0.9 + 0.1 * ((resonance : ℝ) * importance)
                timestamp :=
                  if 24 * 3600 < now - doc.timestamp then
                    now - (now - doc.timestamp) / 2
                  else doc.timestamp }
            else doc) }

/-! ## Advanced crawler
(`src/resonantsearc.whispr.dev_search/src/advanced_crawler.rs`)

The crawl loop is embedded sequentially: one worker drains the frontier with
explicit fuel, URL parsing is represented by carrying the structured URL alongside
its string form, and the network is a function from URLs to optional fetched pages.
Randomness is an explicit stream of naturals. -/

/-- A parsed URL as the `url` crate exposes it: scheme, host, optional port, path,
optional query and optional fragment. -/
structure UrlS where
  scheme : String
  host : String
  port : Option Nat
  path : String
  urlquery : Option String
  fragment : Option String
deriving DecidableEq

/-- `Url::to_string()`: serialize all present components, the fragment included. -/
def urlToString (u : UrlS) : String :=
  u.scheme ++ "://" ++ u.host ++
    (match u.port with
     | some p => ":" ++ toString p
     | none => "") ++
    u.path ++
    (match u.urlquery with
     | some q => "?" ++ q
     | none => "") ++
    (match u.fragment with
     | some f => "#" ++ f
     | none => "")

/-- The URL rewriting done by `AdvancedCrawler::normalize_url`: drop the fragment,
drop an explicit default port (`80` for `http`, `443` for `https`), and replace an
empty path with `/`. -/
def normalizeUrl (u : UrlS) : UrlS :=
  { u with
    fragment := none
    port :=
      if (u.scheme = "http" ∧ u.port = some 80) ∨
          (u.scheme = "https" ∧ u.port = some 443) then none
      else u.port
    path := if u.path = "" then "/" else u.path }

/-- `AdvancedCrawler::normalize_url` returns the normalized URL as a string. -/
def normalize_url (u : UrlS) : String :=
  urlToString (normalizeUrl u)

/-- The sleep performed by `AdvancedCrawler::enforce_rate_limit` (the per-host
rate-limit path invoked by `crawl`): `rand::thread_rng().gen_range(500..2000)`
milliseconds, modelled on a raw random natural `r`. -/
def enforceRateLimitDelay (r : Nat) : Nat :=
  500 + r % 1500

/-- The sleep computed by `AdvancedCrawler::respect_domain_rate_limit` (implemented
but never invoked by `crawl`): the base `crawl_delay` scaled by the jitter factor
`0.8 + rand * 0.4` with `rand` drawn uniformly from `[0, 1)`, truncated to whole
milliseconds. -/
def respectDomainRateLimitDelay (crawl_delay : Nat) (rand : ℚ) : Nat :=
  (⌊(crawl_delay : ℚ) * (8 / 10 + rand * (4 / 10))⌋).toNat

/-- A fetched, parsed page: the `noindex` meta flag, the extracted title and body
text, and the outgoing links (already resolved against the base URL) with their
`nofollow` flags. -/
structure CrawlPage where
  noindex : Bool
  title : String
  text : String
  links : List (UrlS × Bool)

/-- The crawler configuration surface used by the crawl loop. -/
structure CrawlerCfg where
  max_pages : Nat
  max_depth : Nat
  respect_noindex : Bool
  respect_nofollow : Bool
  crawl_delay : Nat
  allowed_domains : Option (List String)

/-- The crawler's environment: the network (`none` models a fetch error, a non-2xx
status or a non-HTML content type — all skipped), the per-host robots verdict, and
the stream of random draws. -/
structure CrawlWorld where
  fetchPage : UrlS → Option CrawlPage
  robotsAllowed : UrlS → Bool
  rng : Nat → Nat

/-- The mutable crawl state: the frontier of (url, depth) pairs, the visited string
set, and the observable trace — fetched URLs, performed rate-limit sleeps and the
crawled-page counter.  `step` indexes the random stream. -/
structure CrawlState where
  queue : List (UrlS × Nat)
  visited : List String
  fetched : List String
  delays : List Nat
  count : Nat
  step : Nat

/-- The link-extraction phase of `AdvancedCrawler::process_url` on one page: when
below the depth limit, drop `nofollow` links when that feature is on, normalize
each remaining link, and keep those whose normalized string is not yet visited,
paired with `depth + 1`. -/
def extractLinks (cfg : CrawlerCfg) (visited : List String) (depth : Nat)
    (page : CrawlPage) : List (UrlS × Nat) :=
  if depth < cfg.max_depth then
    (page.links.filterMap (fun lb =>
        if cfg.respect_nofollow && lb.2 then none
        else if visited.contains (urlToString (normalizeUrl lb.1)) then none
        else some (normalizeUrl lb.1, depth + 1)))
  else []

/-- The domain gate at the top of the worker loop: with an `allowed_domains`
filter configured, only hosts in the set pass. -/
def domainAllowed (cfg : CrawlerCfg) (u : UrlS) : Bool :=
  match cfg.allowed_domains with
  | some allowed => allowed.contains u.host
  | none => true

/-- One iteration of the worker loop of `AdvancedCrawler::crawl`: `none` means the
worker stops (page budget reached or the frontier observed empty); otherwise the
next state.  A dequeued URL is skipped when already visited or outside the allowed
domains; it is marked visited before processing; robots disallowance skips it; the
`enforce_rate_limit` sleep is recorded; a kept page records a fetched document,
enqueues its extracted links and bumps the crawled-page counter. -/
def crawlStep (cfg : CrawlerCfg) (world : CrawlWorld) (s : CrawlState) :
    Option CrawlState :=
  if cfg.max_pages ≤ s.count then none
  else
    match s.queue with
    | [] => none
    | (u, depth) :: rest =>
      if s.visited.contains (urlToString u) then some { s with queue := rest }
      else if ¬domainAllowed cfg u then some { s with queue := rest }
      else if ¬world.robotsAllowed u then
        some { s with queue := rest, visited := s.visited ++ [urlToString u] }
      else
        match world.fetchPage u with
        | none =>
            some { s with
              queue := rest
              visited := s.visited ++ [urlToString u]
              delays := s.delays ++ [enforceRateLimitDelay (world.rng s.step)]
              step := s.step + 1 }
        | some page =>
            if cfg.respect_noindex && page.noindex then
              some { s with
                queue := rest
                visited := s.visited ++ [urlToString u]
                delays := s.delays ++ [enforceRateLimitDelay (world.rng s.step)]
                step := s.step + 1 }
            else
              some { s with
                queue := rest ++
                  extractLinks cfg (s.visited ++ [urlToString u]) depth page
                visited := s.visited ++ [urlToString u]
                fetched := s.fetched ++ [urlToString u]
                delays := s.delays ++ [enforceRateLimitDelay (world.rng s.step)]
                step := s.step + 1
                count := s.count + 1 }

/-- The worker loop of `AdvancedCrawler::crawl`, driven by fuel: iterate
`crawlStep` until it stops. -/
def crawlLoop (cfg : CrawlerCfg) (world : CrawlWorld) : Nat → CrawlState → CrawlState
  | 0, s => s
  | fuel + 1, s =>
    match crawlStep cfg world s with
    | none => s
    | some s1 => crawlLoop cfg world fuel s1

/-- `AdvancedCrawler::crawl` started on seed URLs: the frontier is initialized with
the seeds at depth `0` (seeds are not normalized), and the loop runs on an empty
visited set and trace. -/
def crawlRun (cfg : CrawlerCfg) (world : CrawlWorld) (seeds : List UrlS)
    (fuel : Nat) : CrawlState :=
  crawlLoop cfg world fuel
    { queue := seeds.map (fun u => (u, 0))
      visited := []
      fetched := []
      delays := []
      count := 0
      step := 0 }

/-! ## Concrete instances used to evaluate the embedding -/

noncomputable instance : Inhabited IndexedDocument :=
  ⟨{ title := ""
     text := ""
     vector := []
     biorthogonal := ⟨[], []⟩
     entropy := 0
     path := ""
     timestamp := 0
     reversibility := 0
     buffering := 0
     historical_vectors := [] }⟩

/-- A one-document corpus: the engine after ingesting the text `"hello"`. -/
noncomputable def engHello : ResonantEngine :=
  ResonantEngine.add_crawled_document qtSpec 0 ResonantEngine.new
    { url := "u1", title := "t1", text := "hello" }

/-- Dense projection of the vector of the `"hello"` document. -/
def dH : List ℚ := to_dense_vector [(3, 1)] 1000

/-- The indexed form of the `"hello"` document. -/
noncomputable def docHello : IndexedDocument where
  title := "t1"
  text := "hello"
  vector := [(3, 1)]
  biorthogonal := ⟨[(3, 1/2)], [(3, 1/2)]⟩
  entropy := shannon_entropy [3]
  path := "u1"
  timestamp := 0
  reversibility := 1
  buffering := buffering_capacity qtSpec dH
  historical_vectors := [dH]

/-- A base engine with quantum scoring off, entropy weight `9/20` and trend decay
`0`, set through the public setters. -/
noncomputable def engBase : ResonantEngine :=
  ((ResonantEngine.new.set_use_quantum_score false).set_entropy_weight
      ((9 : ℝ) / 20)).set_trend_decay 0

/-- A two-document corpus over `engBase`: the texts `"c d"` and `"a"`. -/
noncomputable def engAB : ResonantEngine :=
  ResonantEngine.add_crawled_document qtSpec 0
    (ResonantEngine.add_crawled_document qtSpec 0 engBase
      { url := "uA", title := "A", text := "c d" })
    { url := "uB", title := "B", text := "a" }

/-- Term vector of the `"c d"` document. -/
def vA : PrimeVector := [(3, 1/2), (5, 1/2)]

/-- Term vector of the `"a"` document. -/
def vB : PrimeVector := [(7, 1)]

/-- Dense projection of `vA`. -/
def dA : List ℚ := to_dense_vector vA 1000

/-- Dense projection of `vB`. -/
def dB : List ℚ := to_dense_vector vB 1000

/-- Tokenizer state after tokenizing `"c d"` from fresh. -/
def tokCD : PrimeTokenizer := ⟨[("c", 3), ("d", 5)], [(3, "c"), (5, "d")], 5⟩

/-- Tokenizer state after additionally tokenizing `"a"`. -/
def tokCDA : PrimeTokenizer :=
  ⟨[("c", 3), ("d", 5), ("a", 7)], [(3, "c"), (5, "d"), (7, "a")], 7⟩

/-- Tokenizer state after additionally tokenizing `"a b"`. -/
def tokCDAB : PrimeTokenizer :=
  ⟨[("c", 3), ("d", 5), ("a", 7), ("b", 11)],
    [(3, "c"), (5, "d"), (7, "a"), (11, "b")], 11⟩

/-- The indexed form of the `"c d"` document. -/
noncomputable def docA : IndexedDocument where
  title := "A"
  text := "c d"
  vector := vA
  biorthogonal := ⟨[(3, 1/4), (5, 1/4)], [(3, 1/4), (5, 1/4)]⟩
  entropy := shannon_entropy [3, 5]
  path := "uA"
  timestamp := 0
  reversibility := 1
  buffering := buffering_capacity qtSpec dA
  historical_vectors := [dA]

/-- The indexed form of the `"a"` document. -/
noncomputable def docB : IndexedDocument where
  title := "B"
  text := "a"
  vector := vB
  biorthogonal := ⟨[(7, 1/2)], [(7, 1/2)]⟩
  entropy := shannon_entropy [7]
  path := "uB"
  timestamp := 0
  reversibility := 1
  buffering := buffering_capacity qtSpec dB
  historical_vectors := [dB]

/-- `docA` after one relationship-refresh pass over the two-document corpus. -/
noncomputable def docA1 : IndexedDocument :=
  { docA with
    reversibility := calculate_reversibility qtSpec dA [dB]
    historical_vectors := [dA, dA] }

/-- `docB` after one relationship-refresh pass over the two-document corpus. -/
noncomputable def docB1 : IndexedDocument :=
  { docB with
    reversibility := calculate_reversibility qtSpec dB [dA]
    historical_vectors := [dB, dB] }

/-- The engine state reached by `search` on `engAB` with query `"a b"`. -/
noncomputable def engABv2 : ResonantEngine :=
  { tokenizer := tokCDAB
    docs := [docA1, docB1]
    entropy_weight := (9 : ℝ) / 20
    fragility := 0.2
    trend_decay := 0
    use_quantum_score := false
    use_persistence_score := true }

/-- The search result built for the `"c d"` document by the query `"a b"`. -/
noncomputable def resA : SearchResult :=
  engABv2.mkSearchResult 0 (build_vector [7, 11]) (shannon_entropy [7, 11]) docA1

/-- The search result built for the `"a"` document by the query `"a b"`. -/
noncomputable def resB : SearchResult :=
  engABv2.mkSearchResult 0 (build_vector [7, 11]) (shannon_entropy [7, 11]) docB1

/-- A document whose snapshot history is already at capacity 5. -/
noncomputable def docFull : IndexedDocument where
  title := "F"
  text := "f"
  vector := [(3, 1)]
  biorthogonal := ⟨[], []⟩
  entropy := 0
  path := "pF"
  timestamp := 0
  reversibility := 1
  buffering := 0
  historical_vectors := [[], [], [], [], []]

/-- A companion document making the corpus non-singleton. -/
noncomputable def docOther : IndexedDocument where
  title := "G"
  text := "g"
  vector := [(5, 1)]
  biorthogonal := ⟨[], []⟩
  entropy := 0
  path := "pG"
  timestamp := 0
  reversibility := 1
  buffering := 0
  historical_vectors := [[]]

/-- A two-document engine whose first document has a full snapshot history. -/
noncomputable def engFull : ResonantEngine :=
  { tokenizer := PrimeTokenizer.new
    docs := [docFull, docOther]
    entropy_weight := 0.1
    fragility := 0.2
    trend_decay := 0.05
    use_quantum_score := true
    use_persistence_score := true }

/-- Well-formedness of a sparse vector: non-negative weights summing to at most 1.
`build_vector` always produces such vectors. -/
def WFvec (v : PrimeVector) : Prop :=
  (∀ pw ∈ v, 0 ≤ pw.2) ∧ (v.map (fun pw => pw.2)).sum ≤ 1

/-- A seed URL with fragment `a`. -/
def uFragA : UrlS :=
  { scheme := "http", host := "h", port := none, path := "/p", urlquery := none
    fragment := some "a" }

/-- The same seed URL with fragment `b`. -/
def uFragB : UrlS :=
  { scheme := "http", host := "h", port := none, path := "/p", urlquery := none
    fragment := some "b" }

/-- A crawler configuration with a large base `crawl_delay` of 10000 ms. -/
def cfgX : CrawlerCfg :=
  { max_pages := 10, max_depth := 0, respect_noindex := false
    respect_nofollow := false, crawl_delay := 10000, allowed_domains := none }

/-- A URL on which `normalize_url` would be the identity: no fragment, non-empty
path, no explicit default port. -/
def IsNormalizedUrl (u : UrlS) : Prop :=
  u.fragment = none ∧ u.path ≠ "" ∧
    ¬(u.scheme = "http" ∧ u.port = some 80) ∧
    ¬(u.scheme = "https" ∧ u.port = some 443)

/-- The initial crawl state for a single seed `uFragA`. -/
def stateA : CrawlState :=
  { queue := [(uFragA, 0)], visited := [], fetched := [], delays := [], count := 0
    step := 0 }

/-- A network serving one link-free page everywhere, permissive robots, and a
constant random stream. -/
def worldX : CrawlWorld :=
  { fetchPage := fun _ => some { noindex := false, title := "T", text := "body", links := [] }
    robotsAllowed := fun _ => true
    rng := fun _ => 0 }

/-! ## Helper lemmas: tokenizer evaluation -/

theorem nextPrimeAfter_2 : nextPrimeAfter 2 = 3 := by
  rw [nextPrimeAfter, Nat.find_eq_iff]
  exact ⟨⟨by norm_num, by norm_num⟩, by intro n hn h; omega⟩

theorem nextPrimeAfter_3 : nextPrimeAfter 3 = 5 := by
  rw [nextPrimeAfter, Nat.find_eq_iff]
  refine ⟨⟨by norm_num, by norm_num⟩, ?_⟩
  intro n hn h
  obtain ⟨h1, h2⟩ := h
  interval_cases n
  norm_num at h2

theorem nextPrimeAfter_5 : nextPrimeAfter 5 = 7 := by
  rw [nextPrimeAfter, Nat.find_eq_iff]
  refine ⟨⟨by norm_num, by norm_num⟩, ?_⟩
  intro n hn h
  obtain ⟨h1, h2⟩ := h
  interval_cases n
  norm_num at h2

theorem nextPrimeAfter_7 : nextPrimeAfter 7 = 11 := by
  rw [nextPrimeAfter, Nat.find_eq_iff]
  refine ⟨⟨by norm_num, by norm_num⟩, ?_⟩
  intro n hn h
  obtain ⟨h1, h2⟩ := h
  interval_cases n <;> norm_num at h2

theorem tokenize_hello : PrimeTokenizer.new.tokenize "hello" =
    ([3], ⟨[("hello", 3)], [(3, "hello")], 3⟩) := by
  norm_num [PrimeTokenizer.tokenize, PrimeTokenizer.new,
    show textWords "hello" = ["hello"] from by decide, tokenizeWord, nextPrimeAfter_2,
    List.lookup]

theorem tokenize_hello_again :
    PrimeTokenizer.tokenize ⟨[("hello", 3)], [(3, "hello")], 3⟩ "hello" =
      ([3], ⟨[("hello", 3)], [(3, "hello")], 3⟩) := by
  norm_num [PrimeTokenizer.tokenize,
    show textWords "hello" = ["hello"] from by decide, tokenizeWord, List.lookup]

theorem tokenizeWord_c : tokenizeWord PrimeTokenizer.new "c" =
    (3, ⟨[("c", 3)], [(3, "c")], 3⟩) := by
  rw [tokenizeWord]
  norm_num [PrimeTokenizer.new, List.lookup, nextPrimeAfter_2]

theorem tokenizeWord_d : tokenizeWord ⟨[("c", 3)], [(3, "c")], 3⟩ "d" =
    (5, tokCD) := by
  rw [tokenizeWord]
  norm_num [List.lookup, nextPrimeAfter_3, tokCD]
  decide

theorem tokenize_cd : PrimeTokenizer.new.tokenize "c d" = ([3, 5], tokCD) := by
  rw [PrimeTokenizer.tokenize, show textWords "c d" = ["c", "d"] from by decide]
  simp only [List.foldl_cons, List.foldl_nil, tokenizeWord_c, tokenizeWord_d]
  rfl

theorem tokenizeWord_a : tokenizeWord tokCD "a" = (7, tokCDA) := by
  rw [tokenizeWord]
  norm_num [List.lookup, nextPrimeAfter_5, tokCD, tokCDA]
  decide

theorem tokenize_a : tokCD.tokenize "a" = ([7], tokCDA) := by
  rw [PrimeTokenizer.tokenize, show textWords "a" = ["a"] from by decide]
  simp only [List.foldl_cons, List.foldl_nil, tokenizeWord_a]
  rfl

theorem tokenizeWord_a2 : tokenizeWord tokCDA "a" = (7, tokCDA) := by
  rw [tokenizeWord]
  decide

theorem tokenizeWord_b : tokenizeWord tokCDA "b" = (11, tokCDAB) := by
  rw [tokenizeWord]
  norm_num [List.lookup, nextPrimeAfter_7, tokCDA, tokCDAB]
  decide

theorem tokenize_ab : tokCDA.tokenize "a b" = ([7, 11], tokCDAB) := by
  rw [PrimeTokenizer.tokenize, show textWords "a b" = ["a", "b"] from by decide]
  simp only [List.foldl_cons, List.foldl_nil, tokenizeWord_a2, tokenizeWord_b]
  rfl

/-! ## Helper lemmas: vectors, entropy, persistence -/

theorem to_dense_vector_ne_nil (v : PrimeVector) (n : Nat) :
    to_dense_vector v n ≠ [] := by
  simp [to_dense_vector, List.range_succ]

theorem dot_product_nil (v : PrimeVector) : dot_product [] v = 0 := rfl

theorem logb_two_half : Real.logb 2 (1 / 2) = -1 := by
  rw [show (1 / 2 : ℝ) = 2⁻¹ by norm_num, Real.logb_inv]
  simp [Real.logb_self_eq_one]

theorem shannon_single (p : Nat) : shannon_entropy [p] = 0 := by
  simp [shannon_entropy]

theorem shannon_pair (p q : Nat) (h : p ≠ q) : shannon_entropy [p, q] = 1 := by
  rw [shannon_entropy]
  have hd : List.dedup [p, q] = [p, q] := by
    rw [List.dedup_cons_of_not_mem (by simp [h]), List.dedup_cons_of_not_mem (by simp),
      List.dedup_nil]
  rw [if_neg (by simp)]
  rw [hd]
  simp only [List.map_cons, List.map_nil, List.sum_cons, List.sum_nil]
  rw [List.count_cons_self, List.count_cons_of_ne h.symm, List.count_cons_self,
    List.count_nil, List.count_cons_of_ne (Ne.symm (Ne.symm h))]
  push_cast
  simp only [List.count_nil, List.length_cons, List.length_nil]
  norm_num
  rw [logb_two_half]
  ring

theorem qv_eq : build_vector [7, 11] = [(7, 1/2), (11, 1/2)] := by
  norm_num [build_vector]

theorem dot_qv_vA : dot_product [(7, (1 : ℚ)/2), (11, 1/2)] vA = 0 := by
  norm_num [dot_product, PrimeVector.w, vA, List.lookup]
  simp

theorem dot_qv_vB : dot_product [(7, (1 : ℚ)/2), (11, 1/2)] vB = 1 / 2 := by
  norm_num [dot_product, PrimeVector.w, vB, List.lookup]
  simp

theorem dot_single : dot_product (build_vector [3]) [(3, 1)] = 1 := by
  norm_num [build_vector, dot_product, PrimeVector.w, List.lookup]

theorem qtSpec_red_nonneg (v : List ℚ) : 0 ≤ qtSpec.calculate_redundancy v := by
  simp only [qtSpec]
  positivity

theorem qtSpec_sym_pos (v : List ℚ) : 0 < qtSpec.calculate_symmetry v := by
  simp only [qtSpec]
  have hs : (0 : ℚ) ≤ ((v.zip v.reverse).map (fun ab => |ab.1 - ab.2|)).sum :=
    List.sum_nonneg (by
      intro x hx
      obtain ⟨ab, _, rfl⟩ := List.mem_map.1 hx
      exact abs_nonneg _)
  have : (0 : ℚ) < 1 / (1 + ((v.zip v.reverse).map (fun ab => |ab.1 - ab.2|)).sum) :=
    div_pos one_pos (by linarith)
  exact_mod_cast this

theorem buffering_qtSpec_pos (v : List ℚ) : 0 < buffering_capacity qtSpec v :=
  add_pos_of_nonneg_of_pos (qtSpec_red_nonneg v) (qtSpec_sym_pos v)

theorem exp_neg_bound : Real.exp (-(9 / 20)) ≤ 53 / 60 := by
  have h1 : (29 / 20 : ℝ) ≤ Real.exp (9 / 20) := by
    have := Real.add_one_le_exp ((9 : ℝ) / 20)
    linarith
  rw [Real.exp_neg]
  calc (Real.exp (9 / 20))⁻¹ ≤ ((29 : ℝ) / 20)⁻¹ := inv_anti₀ (by norm_num) h1
    _ ≤ 53 / 60 := by norm_num

/-! ## Helper lemmas: concrete engine evaluations -/

theorem engHello_eq : engHello =
    { tokenizer := ⟨[("hello", 3)], [(3, "hello")], 3⟩
      docs := [docHello]
      entropy_weight := 0.1
      fragility := 0.2
      trend_decay := 0.05
      use_quantum_score := true
      use_persistence_score := true } := by
  simp [engHello, ResonantEngine.add_crawled_document, ResonantEngine.new, tokenize_hello]
  rw [show build_vector [3] = [(3, 1)] from by norm_num [build_vector],
    show build_biorthogonal_vector [3] = ⟨[(3, 1/2)], [(3, 1/2)]⟩ from by
      norm_num [build_biorthogonal_vector]]
  rfl

theorem aqj_engHello (imp : ℝ) :
    (engHello.apply_quantum_jump 0 "hello" imp).docs =
      [{ docHello with
          reversibility := 1 * 0.9 + 0.1 * ((1 : ℝ) * imp)
          historical_vectors := [dH, dH] }] := by
  rw [engHello_eq]
  simp [ResonantEngine.apply_quantum_jump, tokenize_hello_again,
    to_dense_vector_ne_nil, docHello, dot_single, dH]
  norm_num [dot_single]

theorem engAB_eq : engAB =
    { tokenizer := tokCDA
      docs := [docA, docB]
      entropy_weight := (9 : ℝ) / 20
      fragility := 0.2
      trend_decay := 0
      use_quantum_score := false
      use_persistence_score := true } := by
  have hA : ResonantEngine.add_crawled_document qtSpec 0 engBase
      { url := "uA", title := "A", text := "c d" } =
      { tokenizer := tokCD
        docs := [docA]
        entropy_weight := (9 : ℝ) / 20
        fragility := 0.2
        trend_decay := 0
        use_quantum_score := false
        use_persistence_score := true } := by
    simp [ResonantEngine.add_crawled_document, engBase, ResonantEngine.new,
      ResonantEngine.set_use_quantum_score, ResonantEngine.set_entropy_weight,
      ResonantEngine.set_trend_decay, tokenize_cd]
    rw [show build_vector [3, 5] = vA from by norm_num [build_vector, vA],
      show build_biorthogonal_vector [3, 5] =
          ⟨[(3, 1/4), (5, 1/4)], [(3, 1/4), (5, 1/4)]⟩ from by
        norm_num [build_biorthogonal_vector]]
    rfl
  rw [engAB, hA]
  simp [ResonantEngine.add_crawled_document, tokenize_a]
  rw [show build_vector [7] = vB from by norm_num [build_vector, vB],
    show build_biorthogonal_vector [7] = ⟨[(7, 1/2)], [(7, 1/2)]⟩ from by
      norm_num [build_biorthogonal_vector]]
  rfl

theorem updateAB_eq : engAB.update_document_relationships qtSpec =
    { tokenizer := tokCDA
      docs := [docA1, docB1]
      entropy_weight := (9 : ℝ) / 20
      fragility := 0.2
      trend_decay := 0
      use_quantum_score := false
      use_persistence_score := true } := by
  rw [engAB_eq]
  rfl

theorem resA_score : resA.score = 0 := by
  simp only [resA, ResonantEngine.mkSearchResult, engABv2, docA1, docA]
  rw [qv_eq, dot_qv_vA, shannon_pair 3 5 (by norm_num), shannon_pair 7 11 (by norm_num)]
  norm_num

theorem resB_score : resB.score = 1 / 20 := by
  simp only [resB, ResonantEngine.mkSearchResult, engABv2, docB1, docB]
  rw [qv_eq, dot_qv_vB, shannon_single, shannon_pair 7 11 (by norm_num)]
  norm_num

theorem resA_persistence : resA.persistence_score = 1 := by
  simp only [resA, ResonantEngine.mkSearchResult, engABv2,
    ResonantEngine.calculate_persistence_score, docA1, docA]
  rw [shannon_pair 3 5 (by norm_num), shannon_pair 7 11 (by norm_num)]
  rw [persistence_score, if_neg (not_le.2 (buffering_qtSpec_pos dA))]
  norm_num [entropy_pressure]

theorem resB_persistence : resB.persistence_score = Real.exp (-(9 / 20)) := by
  simp only [resB, ResonantEngine.mkSearchResult, engABv2,
    ResonantEngine.calculate_persistence_score, docB1, docB]
  rw [shannon_single, shannon_pair 7 11 (by norm_num)]
  rw [persistence_score, if_neg (not_le.2 (buffering_qtSpec_pos dB))]
  norm_num [entropy_pressure]

theorem combined_resB_le_resA :
    combinedScore false true resB ≤ combinedScore false true resA := by
  simp only [combinedScore, Bool.false_and, Bool.false_eq_true, if_false, if_true]
  rw [resA_score, resB_score, resA_persistence, resB_persistence]
  have := exp_neg_bound
  nlinarith [Real.exp_pos (-(9 / 20 : ℝ))]

theorem searchAB_snd : (ResonantEngine.search qtSpec 0 engAB "a b" 2).2 =
    [resA, resB] := by
  rw [ResonantEngine.search, updateAB_eq]
  simp only [tokenize_ab]
  rw [if_neg (by simp)]
  simp only [List.map_cons, List.map_nil]
  change List.take 2
      (List.insertionSort
        (fun a b => combinedScore false true b ≤ combinedScore false true a)
        [resA, resB]) = [resA, resB]
  simp only [List.insertionSort, List.orderedInsert]
  rw [if_pos combined_resB_le_resA]
  rfl

section SortLemmas

variable {α : Type} (key : α → ℝ)

theorem filter_orderedInsert_key (x : α) (l : List α) (v : ℝ) :
    (List.orderedInsert (fun a b => key b ≤ key a) x l).filter
        (fun y => decide (key y = v)) =
      if key x = v then x :: l.filter (fun y => decide (key y = v))
      else l.filter (fun y => decide (key y = v)) := by
  induction l with
  | nil =>
      simp only [List.orderedInsert, List.filter]
      split <;> simp_all
  | cons y ys ih =>
      by_cases hxy : key y ≤ key x
      · rw [List.orderedInsert, if_pos hxy]
        by_cases hx : key x = v
        · simp [hx, List.filter]
        · simp [hx, List.filter]
      · rw [List.orderedInsert, if_neg hxy]
        have hlt : key x < key y := not_le.1 hxy
        by_cases hx : key x = v
        · have hy : ¬(key y = v) := by
            intro hy
            rw [hx] at hlt
            rw [hy] at hlt
            exact lt_irrefl _ hlt
          simp [List.filter, ih, hx, hy]
        · by_cases hy : key y = v
          · simp [List.filter, ih, hx, hy]
          · simp [List.filter, ih, hx, hy]

theorem filter_insertionSort_key (l : List α) (v : ℝ) :
    ((l.insertionSort (fun a b => key b ≤ key a)).filter
        (fun y => decide (key y = v))) =
      l.filter (fun y => decide (key y = v)) := by
  induction l with
  | nil => rfl
  | cons a l ih =>
      rw [List.insertionSort, filter_orderedInsert_key key a _ v, ih]
      by_cases hx : key a = v
      · simp [List.filter, hx]
      · simp [List.filter, hx]

theorem sorted_insertionSort_key (l : List α) :
    List.Sorted (fun a b => key b ≤ key a)
      (l.insertionSort (fun a b => key b ≤ key a)) := by
  haveI : IsTotal α (fun a b => key b ≤ key a) := ⟨fun a b => le_total (key b) (key a)⟩
  haveI : IsTrans α (fun a b => key b ≤ key a) :=
    ⟨fun a b c h1 h2 => le_trans h2 h1⟩
  exact List.sorted_insertionSort _ l

end SortLemmas

theorem getD_map_of_lt {α β : Type} (f : α → β) {l : List α} {i : Nat}
    (h : i < l.length) (d : β) (d' : α) :
    (l.map f).getD i d = f (l.getD i d') := by
  rw [List.getD_eq_getElem?_getD, List.getElem?_map, List.getElem?_eq_getElem h]
  rw [List.getD_eq_getElem?_getD, List.getElem?_eq_getElem h]
  rfl

theorem getD_mapIdx_of_lt {α β : Type} (f : Nat → α → β) {l : List α} {i : Nat}
    (h : i < l.length) (d : β) (d' : α) :
    (l.mapIdx f).getD i d = f i (l.getD i d') := by
  have hlen : i < (l.mapIdx f).length := by
    rw [List.length_mapIdx]
    exact h
  rw [List.getD_eq_getElem?_getD, List.getElem?_eq_getElem hlen]
  rw [List.getD_eq_getElem?_getD, List.getElem?_eq_getElem h]
  simp [List.getElem_mapIdx]

theorem mem_le_sum_q {l : List ℚ} (h0 : ∀ y ∈ l, 0 ≤ y) {x : ℚ} (hx : x ∈ l) :
    x ≤ l.sum := by
  induction l with
  | nil => simp at hx
  | cons a l ih =>
      rw [List.sum_cons]
      rcases List.mem_cons.1 hx with rfl | hx'
      · have : 0 ≤ l.sum := List.sum_nonneg (fun y hy => h0 y (List.mem_cons_of_mem _ hy))
        linarith
      · have ha : 0 ≤ a := h0 a (List.mem_cons_self _ _)
        have := ih (fun y hy => h0 y (List.mem_cons_of_mem _ hy)) hx'
        linarith

theorem lookup_val_mem {v : List (Nat × ℚ)} {p : Nat} {x : ℚ}
    (h : List.lookup p v = some x) : x ∈ v.map (fun pw => pw.2) := by
  induction v with
  | nil => simp [List.lookup] at h
  | cons a v ih =>
      rw [List.lookup] at h
      by_cases hpa : p == a.1
      · rw [hpa] at h
        simp only [Option.some.injEq] at h
        subst h
        simp
      · rw [Bool.not_eq_true] at hpa
        rw [hpa] at h
        simp only [List.map_cons, List.mem_cons]
        exact Or.inr (ih h)

theorem w_nonneg_of_wf {v : PrimeVector} (h : WFvec v) (p : Nat) :
    0 ≤ v.w p := by
  rw [PrimeVector.w]
  cases hl : List.lookup p v with
  | none => simp
  | some x =>
      simp only [Option.getD_some]
      obtain ⟨pw, hpw, rfl⟩ := List.mem_map.1 (lookup_val_mem hl)
      exact h.1 pw hpw

theorem w_le_one_of_wf {v : PrimeVector} (h : WFvec v) (p : Nat) :
    v.w p ≤ 1 := by
  rw [PrimeVector.w]
  cases hl : List.lookup p v with
  | none => simp
  | some x =>
      simp only [Option.getD_some]
      have hmem := lookup_val_mem hl
      have hx : x ≤ (v.map (fun pw => pw.2)).sum :=
        mem_le_sum_q (by
          intro y hy
          obtain ⟨pw, hpw, rfl⟩ := List.mem_map.1 hy
          exact h.1 pw hpw) hmem
      exact le_trans hx h.2

theorem dot_product_nonneg_of_wf {v1 v2 : PrimeVector} (h1 : WFvec v1)
    (h2 : WFvec v2) : 0 ≤ dot_product v1 v2 := by
  rw [dot_product]
  refine List.sum_nonneg ?_
  intro x hx
  obtain ⟨pw, hpw, rfl⟩ := List.mem_map.1 hx
  exact mul_nonneg (h1.1 pw hpw) (w_nonneg_of_wf h2 pw.1)

theorem dot_product_le_one_of_wf {v1 v2 : PrimeVector} (h1 : WFvec v1)
    (h2 : WFvec v2) : dot_product v1 v2 ≤ 1 := by
  rw [dot_product]
  have hstep : (v1.map (fun pw => pw.2 * v2.w pw.1)).sum ≤
      (v1.map (fun pw => pw.2)).sum := by
    apply List.sum_le_sum
    intro pw hpw
    have := w_le_one_of_wf h2 pw.1
    have h0 := h1.1 pw hpw
    nlinarith
  exact le_trans hstep h1.2

theorem sum_dedup_count (t : List Nat) :
    (t.dedup.map (fun p => (t.count p : ℚ))).sum = (t.length : ℚ) := by
  have h1 : (t.dedup.map (fun p => (t.count p : ℚ))).sum =
      ∑ p in t.toFinset, (t.count p : ℚ) := by
    rw [Finset.sum]
    rw [show t.toFinset.val = (t.dedup : Multiset Nat) from by
      simp [List.toFinset, Multiset.toFinset]]
    rw [Multiset.map_coe, Multiset.sum_coe]
  rw [h1, ← Nat.cast_sum]
  norm_cast
  have h2 : ∑ p in t.toFinset, t.count p = Multiset.card (t : Multiset Nat) := by
    rw [← Multiset.toFinset_sum_count_eq]
    apply Finset.sum_congr rfl
    intro x _
    simp
  rw [h2]
  simp

theorem build_vector_wf (t : List Nat) : WFvec (build_vector t) := by
  constructor
  · intro pw hpw
    rw [build_vector] at hpw
    obtain ⟨p, hp, rfl⟩ := List.mem_map.1 hpw
    positivity
  · rw [build_vector]
    rcases eq_or_ne t [] with rfl | ht
    · simp
    · rw [List.map_map]
      have hcomp : ((fun pw => pw.2) ∘ fun p => (p, (t.count p : ℚ) / (t.length : ℚ))) =
          fun p => (t.count p : ℚ) / (t.length : ℚ) := rfl
      rw [hcomp]
      have hlen : (0 : ℚ) < (t.length : ℚ) := by
        have := List.length_pos.2 ht
        exact_mod_cast this
      have hdiv : (t.dedup.map (fun p => (t.count p : ℚ) / (t.length : ℚ))).sum =
          (t.dedup.map (fun p => (t.count p : ℚ))).sum / (t.length : ℚ) := by
        induction t.dedup with
        | nil => simp
        | cons a l ih => simp [List.sum_cons, ih, add_div]
      rw [hdiv, sum_dedup_count]
      rw [div_self (ne_of_gt hlen)]

theorem aqj_docs_length (now : Nat) (e : ResonantEngine) (q : String) (imp : ℝ) :
    (e.apply_quantum_jump now q imp).docs.length = e.docs.length := by
  rw [ResonantEngine.apply_quantum_jump]
  split
  · rfl
  · simp

theorem search_fst_docs (qt : QuantumTypes) (now : Nat) (e : ResonantEngine)
    (q : String) (k : Nat) :
    (ResonantEngine.search qt now e q k).1.docs =
      (e.update_document_relationships qt).docs := by
  rw [ResonantEngine.search]
  split
  · rfl
  · rfl

theorem update_docs_nil (qt : QuantumTypes) (e : ResonantEngine) (h : e.docs = []) :
    (e.update_document_relationships qt).docs = [] := by
  rw [ResonantEngine.update_document_relationships, h]
  rfl

theorem update_tokenizer (qt : QuantumTypes) (e : ResonantEngine) :
    (e.update_document_relationships qt).tokenizer = e.tokenizer := rfl

theorem update_flags (qt : QuantumTypes) (e : ResonantEngine) :
    (e.update_document_relationships qt).use_quantum_score = e.use_quantum_score ∧
      (e.update_document_relationships qt).use_persistence_score =
        e.use_persistence_score := ⟨rfl, rfl⟩

theorem search_snd_empty_corpus (qt : QuantumTypes) (now : Nat) (e : ResonantEngine)
    (q : String) (k : Nat) (h : e.docs = []) :
    (ResonantEngine.search qt now e q k).2 = [] := by
  rw [ResonantEngine.search]
  split
  · rfl
  · simp [update_docs_nil qt e h]

theorem search_snd_empty_query (qt : QuantumTypes) (now : Nat) (e : ResonantEngine)
    (q : String) (k : Nat) (h : (e.tokenizer.tokenize q).1 = []) :
    (ResonantEngine.search qt now e q k).2 = [] := by
  rw [ResonantEngine.search]
  rw [if_pos (by rw [update_tokenizer]; exact h)]

theorem search_snd_length_le (qt : QuantumTypes) (now : Nat) (e : ResonantEngine)
    (q : String) (k : Nat) : (ResonantEngine.search qt now e q k).2.length ≤ k := by
  rw [ResonantEngine.search]
  split
  · simp
  · simp [List.length_take]

theorem chain_take_insertionSort {α : Type} (key : α → ℝ) (l : List α) (k : Nat) :
    List.Chain' (fun a b => b ≤ a)
      ((List.take k (l.insertionSort (fun a b => key b ≤ key a))).map key) := by
  have hsorted := sorted_insertionSort_key key l
  have hp : List.Pairwise (fun a b => key b ≤ key a)
      (List.take k (l.insertionSort (fun a b => key b ≤ key a))) :=
    hsorted.sublist (List.take_sublist _ _)
  rw [List.chain'_map]
  exact hp.chain'

theorem search_snd_chain (qt : QuantumTypes) (now : Nat) (e : ResonantEngine)
    (q : String) (k : Nat) :
    List.Chain' (fun a b => b ≤ a)
      ((ResonantEngine.search qt now e q k).2.map
        (combinedScore e.use_quantum_score e.use_persistence_score)) := by
  rw [ResonantEngine.search]
  split
  · simp
  · exact chain_take_insertionSort
      (combinedScore e.use_quantum_score e.use_persistence_score) _ k

theorem mk_score_eq (now : Nat) (e : ResonantEngine) (qv : PrimeVector) (qH : ℝ)
    (d : IndexedDocument) :
    (e.mkSearchResult now qv qH d).score =
      (e.mkSearchResult now qv qH d).resonance -
        (e.mkSearchResult now qv qH d).delta_entropy * e.entropy_weight := rfl

theorem search_score_standard (qt : QuantumTypes) (now : Nat) (e : ResonantEngine)
    (q : String) (k : Nat) (r : SearchResult)
    (hr : r ∈ (ResonantEngine.search qt now e q k).2) :
    r.score = r.resonance - r.delta_entropy * e.entropy_weight := by
  rw [ResonantEngine.search] at hr
  split at hr
  · simp at hr
  · simp only at hr
    have h1 := List.mem_of_mem_take hr
    have h2 := (List.perm_insertionSort _ _).mem_iff.1 h1
    obtain ⟨d, _, rfl⟩ := List.mem_map.1 h2
    exact mk_score_eq now _ _ _ d

theorem enforceRateLimitDelay_bounds (r : Nat) :
    500 ≤ enforceRateLimitDelay r ∧ enforceRateLimitDelay r < 2000 := by
  rw [enforceRateLimitDelay]
  omega

theorem crawlStep_delays {cfg : CrawlerCfg} {world : CrawlWorld} {s s' : CrawlState}
    (h : crawlStep cfg world s = some s') :
    ∀ d ∈ s'.delays, d ∈ s.delays ∨ (500 ≤ d ∧ d < 2000) := by
  intro d hd
  rw [crawlStep] at h
  split at h
  · exact absurd h (by simp)
  split at h
  · exact absurd h (by simp)
  split at h
  · cases h
    exact Or.inl hd
  split at h
  · cases h
    exact Or.inl hd
  split at h
  · cases h
    exact Or.inl hd
  split at h
  · cases h
    simp only [List.mem_append, List.mem_singleton] at hd
    rcases hd with hd | rfl
    · exact Or.inl hd
    · exact Or.inr (enforceRateLimitDelay_bounds _)
  split at h
  · cases h
    simp only [List.mem_append, List.mem_singleton] at hd
    rcases hd with hd | rfl
    · exact Or.inl hd
    · exact Or.inr (enforceRateLimitDelay_bounds _)
  · cases h
    simp only [List.mem_append, List.mem_singleton] at hd
    rcases hd with hd | rfl
    · exact Or.inl hd
    · exact Or.inr (enforceRateLimitDelay_bounds _)

theorem crawlLoop_delays (cfg : CrawlerCfg) (world : CrawlWorld) :
    ∀ (fuel : Nat) (s : CrawlState),
      ∀ d ∈ (crawlLoop cfg world fuel s).delays,
        d ∈ s.delays ∨ (500 ≤ d ∧ d < 2000) := by
  intro fuel
  induction fuel with
  | zero => intro s d hd; exact Or.inl hd
  | succ n ih =>
      intro s d hd
      rw [crawlLoop] at hd
      cases hstep : crawlStep cfg world s with
      | none => rw [hstep] at hd; exact Or.inl hd
      | some s1 =>
          rw [hstep] at hd
          rcases ih s1 d hd with h1 | h1
          · exact crawlStep_delays hstep d h1
          · exact Or.inr h1

theorem normalizeUrl_fragment (u : UrlS) (f : Option String) :
    normalizeUrl { u with fragment := f } = normalizeUrl u := rfl

theorem normalizeUrl_isNormalized (u : UrlS) : IsNormalizedUrl (normalizeUrl u) := by
  rw [normalizeUrl, IsNormalizedUrl]
  refine ⟨rfl, ?_, ?_, ?_⟩
  · dsimp only
    split <;> simp_all
  · dsimp only
    split
    · simp
    · rename_i hcond
      intro hc
      exact hcond (Or.inl hc)
  · dsimp only
    split
    · simp
    · rename_i hcond
      intro hc
      exact hcond (Or.inr hc)

theorem mem_extractLinks {cfg : CrawlerCfg} {visited : List String} {depth : Nat}
    {page : CrawlPage} {x : UrlS × Nat} (hx : x ∈ extractLinks cfg visited depth page) :
    IsNormalizedUrl x.1 ∧ 1 ≤ x.2 := by
  rw [extractLinks] at hx
  split at hx
  · obtain ⟨lb, _, hlb⟩ := List.mem_filterMap.1 hx
    split at hlb
    · exact absurd hlb (by simp)
    · split at hlb
      · exact absurd hlb (by simp)
      · cases hlb
        exact ⟨normalizeUrl_isNormalized _, by omega⟩
  · exact absurd hx (by simp)

theorem crawlStep_queue {cfg : CrawlerCfg} {world : CrawlWorld} {s s' : CrawlState}
    (h : crawlStep cfg world s = some s') :
    ∀ x ∈ s'.queue, x ∈ s.queue ∨ (IsNormalizedUrl x.1 ∧ 1 ≤ x.2) := by
  intro x hx
  rw [crawlStep] at h
  split at h
  · exact absurd h (by simp)
  split at h
  · exact absurd h (by simp)
  rename_i u depth rest heq
  have htail : ∀ y, y ∈ rest → y ∈ s.queue := by
    intro y hy
    rw [heq]
    exact List.mem_cons_of_mem _ hy
  split at h
  · cases h
    exact Or.inl (htail x hx)
  split at h
  · cases h
    exact Or.inl (htail x hx)
  split at h
  · cases h
    exact Or.inl (htail x hx)
  split at h
  · cases h
    exact Or.inl (htail x hx)
  split at h
  · cases h
    exact Or.inl (htail x hx)
  · cases h
    simp only [List.mem_append] at hx
    rcases hx with hx | hx
    · exact Or.inl (htail x hx)
    · exact Or.inr (mem_extractLinks hx)

theorem crawlLoop_queue (cfg : CrawlerCfg) (world : CrawlWorld) :
    ∀ (fuel : Nat) (s : CrawlState),
      ∀ x ∈ (crawlLoop cfg world fuel s).queue,
        x ∈ s.queue ∨ (IsNormalizedUrl x.1 ∧ 1 ≤ x.2) := by
  intro fuel
  induction fuel with
  | zero => intro s x hx; exact Or.inl hx
  | succ n ih =>
      intro s x hx
      rw [crawlLoop] at hx
      cases hstep : crawlStep cfg world s with
      | none => rw [hstep] at hx; exact Or.inl hx
      | some s1 =>
          rw [hstep] at hx
          rcases ih s1 x hx with h1 | h1
          · exact crawlStep_queue hstep x h1
          · exact Or.inr h1

theorem crawlStep_crawl_delay_irrel (cfg : CrawlerCfg) (world : CrawlWorld)
    (x y : Nat) (s : CrawlState) :
    crawlStep { cfg with crawl_delay := x } world s =
      crawlStep { cfg with crawl_delay := y } world s := rfl

theorem crawlLoop_crawl_delay_irrel (cfg : CrawlerCfg) (world : CrawlWorld)
    (x y : Nat) :
    ∀ (fuel : Nat) (s : CrawlState),
      crawlLoop { cfg with crawl_delay := x } world fuel s =
        crawlLoop { cfg with crawl_delay := y } world fuel s := by
  intro fuel
  induction fuel with
  | zero => intro s; rfl
  | succ n ih =>
      intro s
      rw [crawlLoop, crawlLoop, crawlStep_crawl_delay_irrel cfg world x y s]
      cases crawlStep { cfg with crawl_delay := y } world s with
      | none => rfl
      | some s1 => exact ih s1

theorem crawlRun_single_delay :
    (crawlRun cfgX worldX [uFragA] 5).delays = [500] := by decide

theorem crawlRun_two_seeds :
    (crawlRun cfgX worldX [uFragA, uFragB] 5).fetched =
      ["http://h/p#a", "http://h/p#b"] := by decide

theorem normalize_frag_eq : normalize_url uFragA = normalize_url uFragB := by decide

theorem mem_mapIdx {α β : Type} {f : Nat → α → β} {l : List α} {y : β}
    (hy : y ∈ l.mapIdx f) : ∃ i : Fin l.length, y = f i (l.get i) := by
  rw [List.mapIdx_eq_ofFn] at hy
  have h2 := (List.mem_ofFn _ _).1 hy
  obtain ⟨i, hi⟩ := h2
  exact ⟨i, hi.symm⟩

theorem others_ne_nil {l : List (List ℚ)} (h2 : 2 ≤ l.length) (i : Nat) :
    (l.enum.filter (fun jv => jv.1 ≠ i)).map (fun jv => jv.2) ≠ [] := by
  intro hnil
  rw [List.map_eq_nil_iff] at hnil
  have hall := List.filter_eq_nil_iff.1 hnil
  have h0 : (0, l.getD 0 []) ∈ l.enum := by
    rw [List.mem_enum_iff_getElem?]
    rw [List.getD_eq_getElem?_getD]
    cases hl : l[0]? with
    | none =>
        rw [List.getElem?_eq_none_iff] at hl
        omega
    | some x => simp [hl]
  have h1 : (1, l.getD 1 []) ∈ l.enum := by
    rw [List.mem_enum_iff_getElem?]
    rw [List.getD_eq_getElem?_getD]
    cases hl : l[1]? with
    | none =>
        rw [List.getElem?_eq_none_iff] at hl
        omega
    | some x => simp [hl]
  have e0 := hall _ h0
  have e1 := hall _ h1
  simp at e0 e1
  omega

/-! ## Claims -/

/-- C1 (amended): `search` is not free of relationship updates — it invokes
`update_document_relationships` itself at the start of every call, so after
`search` the corpus is exactly the refreshed corpus; a separate refresh call is not
needed to keep reversibility current. -/
theorem claim_C1 (qt : QuantumTypes) (now : Nat) (e : ResonantEngine) (q : String)
    (k : Nat) :
    (ResonantEngine.search qt now e q k).1.docs =
      (e.update_document_relationships qt).docs :=
  search_fst_docs qt now e q k

/-- C1, counterexample to the claim as stated: on a two-document corpus, calling
`search` changes every document's historical-snapshot list (each history grows from
one to two snapshots), so `search` does not leave relationships unchanged. -/
theorem claim_C1_counterexample :
    ((ResonantEngine.search qtSpec 0 engAB "a" 1).1.docs.map
        (fun d => d.historical_vectors.length)) = [2, 2] ∧
      (engAB.docs.map (fun d => d.historical_vectors.length)) = [1, 1] := by
  constructor
  · rw [search_fst_docs, updateAB_eq]
    simp [docA1, docB1]
  · rw [engAB_eq]
    simp [docA, docB]

/-- C2 (amended): `apply_quantum_jump` leaves every document with
`dot_product(query, doc) ≤ 0.1` unchanged, and for every document with
`dot_product(query, doc) > 0.1` sets its reversibility to
`0.9·old + 0.1·(resonance·importance)`; that value lies in
`[0.9·old, 0.9·old + 0.1]` provided `resonance·importance` lies in `[0, 1]`
(e.g. for `importance ∈ [0, 1]`), but not for arbitrary importance; a matching
document older than 1 day has its timestamp advanced to halve its apparent age,
and a younger one keeps its timestamp. -/
theorem claim_C2 (now : Nat) (e : ResonantEngine) (q : String) (imp : ℝ) (i : Nat)
    (hi : i < e.docs.length) :
    (dot_product (build_vector (e.tokenizer.tokenize q).1)
        (e.docs.getD i default).vector ≤ 1 / 10 →
      (e.apply_quantum_jump now q imp).docs.getD i default = e.docs.getD i default) ∧
    (1 / 10 < dot_product (build_vector (e.tokenizer.tokenize q).1)
        (e.docs.getD i default).vector →
      ((e.apply_quantum_jump now q imp).docs.getD i default).reversibility =
          (e.docs.getD i default).reversibility * 0.9 +
            0.1 * ((dot_product (build_vector (e.tokenizer.tokenize q).1)
                (e.docs.getD i default).vector : ℝ) * imp) ∧
        (0 ≤ (dot_product (build_vector (e.tokenizer.tokenize q).1)
              (e.docs.getD i default).vector : ℝ) * imp →
          (dot_product (build_vector (e.tokenizer.tokenize q).1)
              (e.docs.getD i default).vector : ℝ) * imp ≤ 1 →
          0.9 * (e.docs.getD i default).reversibility ≤
              ((e.apply_quantum_jump now q imp).docs.getD i default).reversibility ∧
            ((e.apply_quantum_jump now q imp).docs.getD i default).reversibility ≤
              0.9 * (e.docs.getD i default).reversibility + 0.1) ∧
        (24 * 3600 < now - (e.docs.getD i default).timestamp →
          ((e.apply_quantum_jump now q imp).docs.getD i default).timestamp =
            now - (now - (e.docs.getD i default).timestamp) / 2) ∧
        (now - (e.docs.getD i default).timestamp ≤ 24 * 3600 →
          ((e.apply_quantum_jump now q imp).docs.getD i default).timestamp =
            (e.docs.getD i default).timestamp)) := by
  rw [ResonantEngine.apply_quantum_jump]
  split
  · rename_i htk
    constructor
    · intro _
      rfl
    · intro hlt
      rw [htk] at hlt
      norm_num [build_vector, dot_product] at hlt
  · rename_i htk
    rw [getD_map_of_lt _ hi default default]
    rw [if_neg (by
      push_neg
      exact ⟨to_dense_vector_ne_nil _ _, to_dense_vector_ne_nil _ _⟩)]
    constructor
    · intro hle
      rw [if_neg (not_lt.2 hle)]
    · intro hlt
      rw [if_pos hlt]
      refine ⟨rfl, ?_, ?_, ?_⟩
      · intro h0 h1
        constructor
        · dsimp only
          nlinarith
        · dsimp only
          nlinarith
      · intro hts
        dsimp only
        rw [if_pos hts]
      · intro hts
        dsimp only
        rw [if_neg (not_lt.2 hts)]

/-- C2, witness: on the one-document corpus `engHello` with query `"hello"` and
importance `1/2`, the matching document's reversibility follows the
`0.9·old + 0.1·(resonance·importance)` update rule. -/
theorem claim_C2_witness :
    ((engHello.apply_quantum_jump 0 "hello" (1/2)).docs.getD 0
        default).reversibility =
      (engHello.docs.getD 0 default).reversibility * 0.9 +
        0.1 * ((dot_product (build_vector ((engHello.tokenizer.tokenize "hello").1))
            (engHello.docs.getD 0 default).vector : ℝ) * (1/2)) := by
  have hi : 0 < engHello.docs.length := by
    rw [engHello_eq]
    simp
  have hdot : 1 / 10 < dot_product
      (build_vector ((engHello.tokenizer.tokenize "hello").1))
      (engHello.docs.getD 0 default).vector := by
    rw [engHello_eq]
    simp only [tokenize_hello_again, List.getD_cons_zero]
    rw [show docHello.vector = [(3, 1)] from rfl, dot_single]
    norm_num
  exact ((claim_C2 0 engHello "hello" (1/2) 0 hi).2 hdot).1

/-- C2, counterexample to the claim as stated: with importance `2` the matching
document's new reversibility is `1.1`, outside the claimed interval
`[0.9·old, 0.9·old + 0.1] = [0.9, 1.0]` (its old reversibility being `1`). -/
theorem claim_C2_counterexample :
    ((engHello.apply_quantum_jump 0 "hello" 2).docs.getD 0 default).reversibility =
        11 / 10 ∧
      ¬(((engHello.apply_quantum_jump 0 "hello" 2).docs.getD 0
          default).reversibility ≤ 0.9 * 1 + 0.1) := by
  rw [aqj_engHello 2]
  norm_num

/-- C3 (amended): reversibility lies in `[0, 1]` at ingestion (initial value `1`)
and is preserved by `update_document_relationships` provided the
mutual-information estimator is `[0, 1]`-valued, and by `apply_quantum_jump`
provided the importance lies in `[0, 1]` and the corpus vectors are the normalized
term-frequency vectors the engine builds (so that `resonance·importance ∈ [0, 1]`);
it is not preserved for arbitrary importance. -/
theorem claim_C3 (qt : QuantumTypes) (now : Nat) (e : ResonantEngine)
    (cdoc : CrawledDocument) (q : String) (imp : ℝ)
    (hmi : ∀ a b, qt.mutual_information a b ∈ Set.Icc (0 : ℝ) 1)
    (hrev : ∀ d ∈ e.docs, d.reversibility ∈ Set.Icc (0 : ℝ) 1)
    (hwf : ∀ d ∈ e.docs, WFvec d.vector)
    (himp : imp ∈ Set.Icc (0 : ℝ) 1) :
    (∀ d ∈ (e.add_crawled_document qt now cdoc).docs,
        d.reversibility ∈ Set.Icc (0 : ℝ) 1) ∧
      (∀ d ∈ (e.update_document_relationships qt).docs,
        d.reversibility ∈ Set.Icc (0 : ℝ) 1) ∧
      (∀ d ∈ (e.apply_quantum_jump now q imp).docs,
        d.reversibility ∈ Set.Icc (0 : ℝ) 1) := by
  refine ⟨?_, ?_, ?_⟩
  · rw [ResonantEngine.add_crawled_document]
    split
    · exact hrev
    · intro d hd
      simp only [List.mem_append, List.mem_singleton] at hd
      rcases hd with hd | rfl
      · exact hrev d hd
      · exact ⟨zero_le_one, le_refl 1⟩
  · rw [ResonantEngine.update_document_relationships]
    intro d hd
    obtain ⟨i, rfl⟩ := mem_mapIdx hd
    have hdoc := hrev _ (List.get_mem e.docs i.1 i.2)
    dsimp only
    split
    · exact hdoc
    · rename_i hothers
      dsimp only
      rw [calculate_reversibility, if_neg hothers]
      set others := (((e.docs.map fun d => to_dense_vector d.vector 1000).enum.filter
          (fun jv => jv.1 ≠ (i : ℕ))).map fun jv => jv.2) with hodef
      have hlen : 0 < (others.length : ℝ) := by
        have : others ≠ [] := hothers
        have h0 : 0 < others.length := List.length_pos.2 this
        exact_mod_cast h0
      have hsum_le : (others.map (fun past =>
          qt.mutual_information ((e.docs.map fun d =>
            to_dense_vector d.vector 1000).getD (i : ℕ) []) past)).sum ≤
          (others.length : ℝ) := by
        have := List.sum_le_card_nsmul (others.map (fun past =>
            qt.mutual_information ((e.docs.map fun d =>
              to_dense_vector d.vector 1000).getD (i : ℕ) []) past)) 1
          (by
            intro x hx
            obtain ⟨past, _, rfl⟩ := List.mem_map.1 hx
            exact (hmi _ past).2)
        simpa using this
      have hsum_ge : 0 ≤ (others.map (fun past =>
          qt.mutual_information ((e.docs.map fun d =>
            to_dense_vector d.vector 1000).getD (i : ℕ) []) past)).sum :=
        List.sum_nonneg (by
          intro x hx
          obtain ⟨past, _, rfl⟩ := List.mem_map.1 hx
          exact (hmi _ past).1)
      constructor
      · positivity
      · rw [div_le_one hlen]
        simpa using hsum_le
  · rw [ResonantEngine.apply_quantum_jump]
    split
    · exact hrev
    · rename_i htk
      intro d hd
      obtain ⟨dd, hdd, rfl⟩ := List.mem_map.1 hd
      have hdoc := hrev dd hdd
      dsimp only
      split
      · exact hdoc
      · split
        · rename_i hdot
          dsimp only
          have hq : WFvec (build_vector (e.tokenizer.tokenize q).1) := build_vector_wf _
          have hd2 : WFvec dd.vector := hwf dd hdd
          have hdot0 : (0 : ℚ) ≤ dot_product (build_vector (e.tokenizer.tokenize q).1)
              dd.vector := dot_product_nonneg_of_wf hq hd2
          have hdot1 : dot_product (build_vector (e.tokenizer.tokenize q).1)
              dd.vector ≤ 1 := dot_product_le_one_of_wf hq hd2
          have hr0 : (0 : ℝ) ≤ (dot_product (build_vector (e.tokenizer.tokenize q).1)
              dd.vector : ℝ) := by exact_mod_cast hdot0
          have hr1 : ((dot_product (build_vector (e.tokenizer.tokenize q).1)
              dd.vector : ℚ) : ℝ) ≤ 1 := by exact_mod_cast hdot1
          obtain ⟨hi0, hi1⟩ := himp
          obtain ⟨hv0, hv1⟩ := hdoc
          have hprod0 : 0 ≤ ((dot_product (build_vector (e.tokenizer.tokenize q).1)
              dd.vector : ℚ) : ℝ) * imp := mul_nonneg hr0 hi0
          have hprod1 : ((dot_product (build_vector (e.tokenizer.tokenize q).1)
              dd.vector : ℚ) : ℝ) * imp ≤ 1 := by nlinarith
          constructor
          · nlinarith
          · nlinarith
        · exact hdoc

/-- C3, witness: the invariant instantiated on the one-document corpus `engHello`
with the spec-modelled estimator and importance `1/2`. -/
theorem claim_C3_witness :
    ((engHello.apply_quantum_jump 0 "hello" (1/2)).docs.getD 0
        default).reversibility ∈ Set.Icc (0 : ℝ) 1 := by
  have h1 : ∀ a b, qtSpec.mutual_information a b ∈ Set.Icc (0 : ℝ) 1 := by
    intro a b
    simp [qtSpec]
  have h2 : ∀ d ∈ engHello.docs, d.reversibility ∈ Set.Icc (0 : ℝ) 1 := by
    rw [engHello_eq]
    intro d hd
    simp only [List.mem_singleton] at hd
    subst hd
    simp [docHello]
  have h3 : ∀ d ∈ engHello.docs, WFvec d.vector := by
    rw [engHello_eq]
    intro d hd
    simp only [List.mem_singleton] at hd
    subst hd
    rw [show docHello.vector = [(3, 1)] from rfl]
    constructor
    · intro pw hpw
      simp only [List.mem_singleton] at hpw
      subst hpw
      norm_num
    · norm_num
  have h4 : (1/2 : ℝ) ∈ Set.Icc (0 : ℝ) 1 := by norm_num
  refine (claim_C3 qtSpec 0 engHello ⟨"u", "t", "x"⟩ "hello" (1/2) h1 h2 h3 h4).2.2 _ ?_
  rw [aqj_engHello (1/2)]
  simp

/-- C3, counterexample to the claim as stated: with arbitrary importance (here `2`)
`apply_quantum_jump` pushes the matching document's reversibility to `1.1`, outside
`[0, 1]`. -/
theorem claim_C3_counterexample :
    ¬(((engHello.apply_quantum_jump 0 "hello" 2).docs.getD 0
        default).reversibility ∈ Set.Icc (0 : ℝ) 1) := by
  rw [aqj_engHello 2]
  simp only [List.getD_cons_zero, Set.mem_Icc]
  norm_num

/-- C4 (amended): for a corpus of at least two documents the relationship-refresh
pass appends the document's current dense snapshot to its history only while the
history holds fewer than 5 snapshots; once the history is at capacity 5 it is left
unchanged — no FIFO eviction and no recording of the newest snapshot — so the
history length never exceeds 5. -/
theorem claim_C4 (qt : QuantumTypes) (e : ResonantEngine) (i : Nat)
    (hi : i < e.docs.length) (h2 : 2 ≤ e.docs.length) :
    (((e.update_document_relationships qt).docs.getD i default).historical_vectors =
      if (e.docs.getD i default).historical_vectors.length < 5 then
        (e.docs.getD i default).historical_vectors ++
          [(e.docs.map (fun d => to_dense_vector d.vector 1000)).getD i []]
      else (e.docs.getD i default).historical_vectors) ∧
    ((e.docs.getD i default).historical_vectors.length ≤ 5 →
      ((e.update_document_relationships qt).docs.getD i
          default).historical_vectors.length ≤ 5) := by
  have hmain : ((e.update_document_relationships qt).docs.getD i
      default).historical_vectors =
      if (e.docs.getD i default).historical_vectors.length < 5 then
        (e.docs.getD i default).historical_vectors ++
          [(e.docs.map (fun d => to_dense_vector d.vector 1000)).getD i []]
      else (e.docs.getD i default).historical_vectors := by
    rw [ResonantEngine.update_document_relationships]
    dsimp only
    rw [getD_mapIdx_of_lt _ hi default default]
    rw [if_neg (by
      apply others_ne_nil
      rw [List.length_map]
      exact h2)]
  refine ⟨hmain, ?_⟩
  intro hlen
  rw [hmain]
  split
  · rw [List.length_append]
    simp only [List.length_singleton]
    omega
  · exact hlen

/-- C4, witness: on the two-document corpus `engAB` the first document's refreshed
history stays within the capacity bound. -/
theorem claim_C4_witness :
    ((engAB.update_document_relationships qtSpec).docs.getD 0
        default).historical_vectors.length ≤ 5 := by
  have hi : 0 < engAB.docs.length := by
    rw [engAB_eq]
    simp
  have h2 : 2 ≤ engAB.docs.length := by
    rw [engAB_eq]
    simp
  refine (claim_C4 qtSpec engAB 0 hi h2).2 ?_
  rw [engAB_eq]
  simp [docA]

/-- C4, counterexample to the claim as stated: a document whose history is already
at capacity 5 keeps its history unchanged across the refresh pass — the current
dense snapshot is not recorded at all (no FIFO eviction). -/
theorem claim_C4_counterexample :
    ((engFull.update_document_relationships qtSpec).docs.getD 0
        default).historical_vectors = [[], [], [], [], []] ∧
      to_dense_vector (engFull.docs.getD 0 default).vector 1000 ∉
        ((engFull.update_document_relationships qtSpec).docs.getD 0
          default).historical_vectors := by
  have hh : ((engFull.update_document_relationships qtSpec).docs.getD 0
      default).historical_vectors = [[], [], [], [], []] := rfl
  refine ⟨hh, ?_⟩
  rw [hh]
  intro hmem
  simp only [List.mem_cons, List.not_mem_nil] at hmem
  rcases hmem with h | h | h | h | h | h
  all_goals first
    | exact to_dense_vector_ne_nil _ _ h
    | exact h

/-- C5 (amended): `persistence_score` returns exactly `0` whenever
`buffering ≤ 0`; for `buffering > 0` it returns
`e^(−fragility·(1−reversibility)·(pressure/buffering))`, which is always positive,
and lies in `(0, 1]` whenever additionally `fragility ≥ 0`, `reversibility ≤ 1`
and `pressure ≥ 0` — but not for arbitrary inputs. -/
theorem claim_C5 (r p b f : ℝ) :
    (b ≤ 0 → persistence_score r p b f = 0) ∧
      (0 < b → persistence_score r p b f =
          Real.exp (-f * (1 - r) * (p / b)) ∧ 0 < persistence_score r p b f) ∧
      (0 < b → 0 ≤ f → r ≤ 1 → 0 ≤ p →
        persistence_score r p b f ∈ Set.Ioc (0 : ℝ) 1) := by
  refine ⟨?_, ?_, ?_⟩
  · intro hb
    rw [persistence_score, if_pos hb]
  · intro hb
    rw [persistence_score, if_neg (not_le.2 hb)]
    exact ⟨rfl, Real.exp_pos _⟩
  · intro hb hf hr hp
    rw [persistence_score, if_neg (not_le.2 hb)]
    constructor
    · exact Real.exp_pos _
    · rw [Real.exp_le_one_iff]
      have h1 : 0 ≤ 1 - r := by linarith
      have h2 : 0 ≤ p / b := div_nonneg hp (le_of_lt hb)
      have := mul_nonneg (mul_nonneg hf h1) h2
      linarith [this]

/-- C5, witness: at reversibility `1/2`, pressure `1`, buffering `1` and fragility
`1` the score lies in `(0, 1]`. -/
theorem claim_C5_witness :
    persistence_score (1/2) 1 1 1 ∈ Set.Ioc (0 : ℝ) 1 :=
  (claim_C5 (1/2) 1 1 1).2.2 (by norm_num) (by norm_num) (by norm_num) (by norm_num)

/-- C5, counterexample to the claim as stated: at reversibility `2` (with positive
pressure and fragility) the result is `e^1 > 1`, outside the claimed range
`(0, 1]`. -/
theorem claim_C5_counterexample :
    persistence_score 2 1 1 1 = Real.exp 1 ∧ 1 < persistence_score 2 1 1 1 := by
  have h : persistence_score 2 1 1 1 = Real.exp 1 := by
    rw [persistence_score, if_neg (by norm_num)]
    norm_num
  refine ⟨h, ?_⟩
  rw [h]
  exact Real.one_lt_exp_iff.2 one_pos

/-- C6 (amended): every per-host rate-limit delay performed during a crawl is drawn
by `enforce_rate_limit` as `500 + (r mod 1500)` milliseconds — it always lies in
`[500, 2000)` and is independent of the configured `crawl_delay`; the jittered
`crawl_delay × U[0.8, 1.2]` sleep exists only in `respect_domain_rate_limit`,
which the crawl loop never invokes. -/
theorem claim_C6 :
    (∀ r : Nat, 500 ≤ enforceRateLimitDelay r ∧ enforceRateLimitDelay r < 2000) ∧
      (∀ (cfg : CrawlerCfg) (world : CrawlWorld) (fuel : Nat) (s : CrawlState),
        ∀ d ∈ (crawlLoop cfg world fuel s).delays,
          d ∈ s.delays ∨ (500 ≤ d ∧ d < 2000)) ∧
      (∀ (cfg : CrawlerCfg) (world : CrawlWorld) (seeds : List UrlS) (fuel x y : Nat),
        (crawlRun { cfg with crawl_delay := x } world seeds fuel).delays =
          (crawlRun { cfg with crawl_delay := y } world seeds fuel).delays) := by
  refine ⟨enforceRateLimitDelay_bounds, crawlLoop_delays, ?_⟩
  intro cfg world seeds fuel x y
  rw [crawlRun, crawlRun, crawlLoop_crawl_delay_irrel cfg world x y]

/-- C6, witness: the single delay performed by a one-page crawl lies in the
`[500, 2000)` band. -/
theorem claim_C6_witness :
    (500 : Nat) ∈ stateA.delays ∨ (500 ≤ 500 ∧ (500 : Nat) < 2000) := by
  refine claim_C6.2.1 cfgX worldX 5 stateA 500 ?_
  have h : (crawlLoop cfgX worldX 5 stateA).delays = [500] := crawlRun_single_delay
  rw [h]
  simp

/-- C6, counterexample to the claim as stated: with `crawl_delay = 10000` the crawl
performs a 500 ms sleep, far below the claimed band
`[0.8·crawl_delay, 1.2·crawl_delay] = [8000, 12000]`. -/
theorem claim_C6_counterexample :
    (crawlRun cfgX worldX [uFragA] 5).delays = [500] ∧
      500 < 4 * cfgX.crawl_delay / 5 :=
  ⟨crawlRun_single_delay, by decide⟩

/-- C7 (amended): normalization strips the fragment — two URLs differing only in
their fragment normalize identically — and every frontier entry created by link
extraction during a crawl is in normalized form at depth at least 1; seed URLs,
however, enter the frontier unnormalized, so two seed URLs differing only in their
fragment are each fetched. -/
theorem claim_C7 :
    (∀ (u : UrlS) (f1 f2 : Option String),
        normalize_url { u with fragment := f1 } =
          normalize_url { u with fragment := f2 }) ∧
      (∀ u : UrlS, IsNormalizedUrl (normalizeUrl u)) ∧
      (∀ (cfg : CrawlerCfg) (world : CrawlWorld) (fuel : Nat) (s : CrawlState),
        ∀ x ∈ (crawlLoop cfg world fuel s).queue,
          x ∈ s.queue ∨ (IsNormalizedUrl x.1 ∧ 1 ≤ x.2)) := by
  refine ⟨?_, normalizeUrl_isNormalized, crawlLoop_queue⟩
  intro u f1 f2
  rfl

/-- C7, witness: a frontier entry of a zero-fuel crawl is accounted for by the
queue invariant. -/
theorem claim_C7_witness :
    (uFragA, 0) ∈ stateA.queue ∨
      (IsNormalizedUrl (uFragA, 0).1 ∧ 1 ≤ (uFragA, 0).2) :=
  claim_C7.2.2 cfgX worldX 0 stateA (uFragA, 0) (by decide)

/-- C7, counterexample to the claim as stated: two seed URLs differing only in
their fragment normalize identically yet are both fetched by the crawler — seeds
are compared and stored unnormalized, so the fragment-variant is not deduplicated
and the underlying URL is fetched twice. -/
theorem claim_C7_counterexample :
    (crawlRun cfgX worldX [uFragA, uFragB] 5).fetched =
        ["http://h/p#a", "http://h/p#b"] ∧
      normalize_url uFragA = normalize_url uFragB ∧ uFragA ≠ uFragB :=
  ⟨crawlRun_two_seeds, by decide, by decide⟩

/-- C8 (confirmed): `search` over an empty corpus and `search` with a query whose
tokenization is empty both return the empty sequence; results never exceed `k`;
the combined scores (matching the enabled feature weighting) are non-increasing
across the returned sequence; and the stable sort preserves the original insertion
order within every tie class of the combined score. -/
theorem claim_C8 :
    (∀ (qt : QuantumTypes) (now : Nat) (e : ResonantEngine) (q : String) (k : Nat),
        e.docs = [] → (ResonantEngine.search qt now e q k).2 = []) ∧
      (∀ (qt : QuantumTypes) (now : Nat) (e : ResonantEngine) (q : String) (k : Nat),
        (e.tokenizer.tokenize q).1 = [] →
          (ResonantEngine.search qt now e q k).2 = []) ∧
      (∀ (qt : QuantumTypes) (now : Nat) (e : ResonantEngine) (q : String) (k : Nat),
        (ResonantEngine.search qt now e q k).2.length ≤ k) ∧
      (∀ (qt : QuantumTypes) (now : Nat) (e : ResonantEngine) (q : String) (k : Nat),
        List.Chain' (fun a b => b ≤ a)
          ((ResonantEngine.search qt now e q k).2.map
            (combinedScore e.use_quantum_score e.use_persistence_score))) ∧
      (∀ (l : List SearchResult) (uq up : Bool) (v : ℝ),
        ((l.insertionSort (fun a b =>
            combinedScore uq up b ≤ combinedScore uq up a)).filter
          (fun x => decide (combinedScore uq up x = v))) =
          l.filter (fun x => decide (combinedScore uq up x = v))) :=
  ⟨search_snd_empty_corpus, search_snd_empty_query, search_snd_length_le,
    search_snd_chain, fun l uq up v => filter_insertionSort_key (combinedScore uq up) l v⟩

/-- C8, witness: searching the empty corpus returns the empty sequence. -/
theorem claim_C8_witness :
    (ResonantEngine.search qtSpec 0 ResonantEngine.new "a" 3).2 = [] :=
  claim_C8.1 qtSpec 0 ResonantEngine.new "a" 3 rfl

/-- C9 (confirmed): ingesting a crawled document whose text tokenizes to the empty
sequence leaves the corpus exactly as before (no error is signalled — the model is
a total function); a document with a non-empty token sequence appends exactly one
`IndexedDocument`. -/
theorem claim_C9 (qt : QuantumTypes) (now : Nat) (e : ResonantEngine)
    (cdoc : CrawledDocument) :
    ((e.tokenizer.tokenize cdoc.text).1 = [] →
      (e.add_crawled_document qt now cdoc).docs = e.docs) ∧
    ((e.tokenizer.tokenize cdoc.text).1 ≠ [] →
      (e.add_crawled_document qt now cdoc).docs = e.docs ++
        [{ title := cdoc.title
           text := cdoc.text
           vector := build_vector (e.tokenizer.tokenize cdoc.text).1
           biorthogonal := build_biorthogonal_vector (e.tokenizer.tokenize cdoc.text).1
           entropy := shannon_entropy (e.tokenizer.tokenize cdoc.text).1
           path := cdoc.url
           timestamp := now
           reversibility := 1
           buffering := buffering_capacity qt
             (to_dense_vector (build_vector (e.tokenizer.tokenize cdoc.text).1) 1000)
           historical_vectors :=
             [to_dense_vector (build_vector (e.tokenizer.tokenize cdoc.text).1)
               1000] }]) := by
  constructor
  · intro h
    rw [ResonantEngine.add_crawled_document, if_pos h]
  · intro h
    rw [ResonantEngine.add_crawled_document, if_neg h]

/-- C9, witness: the text `"!!!"` tokenizes to the empty sequence and its ingestion
leaves the empty corpus unchanged. -/
theorem claim_C9_witness :
    (ResonantEngine.add_crawled_document qtSpec 0 ResonantEngine.new
        { url := "u", title := "t", text := "!!!" }).docs =
      ResonantEngine.new.docs :=
  (claim_C9 qtSpec 0 ResonantEngine.new { url := "u", title := "t", text := "!!!" }).1
    (by decide)

/-- C10 (confirmed): the `score` field of every returned result is exactly the
standard score (the recorded resonance minus the recorded entropy delta times the
entropy weight) — the combined score used for ordering is not stored — and, with
persistence scoring enabled, the returned `score` sequence can be strictly
increasing. -/
theorem claim_C10 :
    (∀ (qt : QuantumTypes) (now : Nat) (e : ResonantEngine) (q : String) (k : Nat)
        (r : SearchResult), r ∈ (ResonantEngine.search qt now e q k).2 →
        r.score = r.resonance - r.delta_entropy * e.entropy_weight) ∧
      ¬List.Chain' (fun a b => b ≤ a)
        (((ResonantEngine.search qtSpec 0 engAB "a b" 2).2).map
          (fun r => r.score)) := by
  refine ⟨search_score_standard, ?_⟩
  rw [searchAB_snd]
  simp only [List.map_cons, List.map_nil, resA_score, resB_score]
  intro hch
  rw [List.chain'_cons] at hch
  have := hch.1
  norm_num at this

/-- C10, witness: the first result returned for the query `"a b"` on `engAB`
carries the standard score in its `score` field. -/
theorem claim_C10_witness :
    resA.score = resA.resonance - resA.delta_entropy * engAB.entropy_weight :=
  claim_C10.1 qtSpec 0 engAB "a b" 2 resA (by rw [searchAB_snd]; simp)
